import Mathlib

/-!
Verification of the bounded-concurrency CSV ingestion pipeline (`main.go` of
`go-lambda-csv`).

The development has two layers:

* a functional embedding of the per-record worker `processRecord` and of the
  request handler's response logic (`handleRequest`, `extractBoundary`),
  with Go `defer` semantics resolved explicitly (deferred calls run on normal
  return, but `os.Exit(1)` terminates the process without running them);

* a small-step transition system for the dispatch loop of `handleRequest`
  (lines 106-122 of `main.go`): the submitter runs `wg.Add(1)`,
  `sem <- struct{}{}` (blocking when the 500-slot buffer is full) and
  `go processRecord(..)` for each parsed record, then blocks in `wg.Wait()`;
  each spawned goroutine marshals its item (exiting the whole process on a
  marshalling error), calls `PutItem`, and on return runs its deferred
  semaphore release followed by its deferred `wg.Done()`.

Store-write outcomes (`putOk`) and marshalling outcomes (`marshalOk`) are
external-collaborator behaviour and are supplied as oracles indexed by the
record's position in the input.
-/

/-- Go struct `Record` (main.go lines 29-31): the persisted DynamoDB item,
holding only the generated identifier. -/
structure Record where
  ID : String
deriving DecidableEq

/-- Log/console output events emitted by `processRecord`, abstracting the
formatted text of `log.Printf` and `fmt.Println`. -/
inductive LogEvent
  | processing (record : List String)
  | marshalError (msg : String)
  | putError (msg : String)
deriving DecidableEq

/-- Observable effects of one run of the goroutine body `processRecord`
(main.go lines 40-70). `exitedProcess` records that `os.Exit(1)` ran, in
which case the deferred semaphore release and `wg.Done()` are skipped. -/
structure TaskResult where
  exitedProcess : Bool
  putCalls : List Record
  logs : List LogEvent
  semReleases : Nat
  wgDones : Nat
deriving DecidableEq

/-- Functional embedding of `processRecord` (main.go lines 40-70). The fresh
identifier produced by `uuid.New().String()` is the parameter `id`; the
outcomes of `dynamodbattribute.MarshalMap` and `svc.PutItem` are the oracle
parameters `marshalErr` and `putErr` (`none` = success). Go's `defer`
statements are resolved: on every normal return the function first receives
from the semaphore and then calls `wg.Done()` exactly once each; `os.Exit(1)`
skips both. -/
def processRecord (record : List String) (id : String)
    (marshalErr : Option String) (putErr : Option String) : TaskResult :=
  let item : Record := { ID := id }
  match marshalErr with
  | some e =>
      { exitedProcess := true
        putCalls := []
        logs := [LogEvent.processing record, LogEvent.marshalError e]
        semReleases := 0
        wgDones := 0 }
  | none =>
      match putErr with
      | some e =>
          { exitedProcess := false
            putCalls := [item]
            logs := [LogEvent.processing record, LogEvent.putError e]
            semReleases := 1
            wgDones := 1 }
      | none =>
          { exitedProcess := false
            putCalls := [item]
            logs := [LogEvent.processing record]
            semReleases := 1
            wgDones := 1 }

/-- Go `unicode.IsSpace`, by code point (the White_Space property, which is
what `strings.TrimSpace` strips). -/
def goIsSpace (c : Char) : Bool :=
  let n := c.toNat
  (9 ≤ n && n ≤ 13) || n == 32 || n == 0x85 || n == 0xA0 || n == 0x1680 ||
  (0x2000 ≤ n && n ≤ 0x200A) || n == 0x2028 || n == 0x2029 || n == 0x202F ||
  n == 0x205F || n == 0x3000

/-- Go `strings.TrimSpace`: drop leading and trailing white space. -/
def goTrimSpace (s : String) : String :=
  String.mk (((s.data.dropWhile goIsSpace).reverse.dropWhile goIsSpace).reverse)

/-- Go `strings.Split(s, ";")`: the list of substrings between occurrences of
`;` (the empty string splits to `[""]`, matching Go). -/
def splitSemi : List Char → List String
  | [] => [""]
  | c :: rest =>
      if c = ';' then "" :: splitSemi rest
      else
        match splitSemi rest with
        | [] => [String.mk [c]]
        | head :: tail => String.mk (c :: head.data) :: tail

/-- The loop body of `extractBoundary` (main.go lines 134-139): trim each
parameter, return the suffix after `boundary=` of the first parameter that
starts with it. `param[len(boundaryPrefix):]` slices 9 bytes, and since the
prefix match forces the first 9 characters to be the ASCII `boundary=`,
dropping 9 characters is the same slice. -/
def findBoundary : List String → String
  | [] => ""
  | p :: rest =>
      let q := goTrimSpace p
      if "boundary=".data.isPrefixOf q.data then String.mk (q.data.drop 9)
      else findBoundary rest

/-- `extractBoundary` (main.go lines 132-141). -/
def extractBoundary (contentType : String) : String :=
  findBoundary (splitSemi contentType.data)

/-- Restatement of the claimed behaviour of `extractBoundary` in the spec's
words: split on `;`, trim every piece, and take the suffix after `boundary=`
of the *first* piece having that prefix, the empty string when no piece has
it (pieces merely containing `boundary=` elsewhere are never selected). -/
def extractBoundarySpec (contentType : String) : String :=
  match ((splitSemi contentType.data).map goTrimSpace).find?
      (fun q => "boundary=".data.isPrefixOf q.data) with
  | some q => String.mk (q.data.drop 9)
  | none => ""

/-- One HTTP response of the Lambda handler (`events.APIGatewayProxyResponse`,
restricted to the two fields `handleRequest` sets). -/
structure APIGatewayProxyResponse where
  statusCode : Nat
  body : String
deriving DecidableEq

/-- Outcome of reading one multipart part in the loop of `handleRequest`
(main.go lines 86-124), as delivered by the external collaborators
`multipart.Reader` and `csv.Reader`: a non-EOF `NextPart` error, a part whose
form name is not `file`, a `file` part whose CSV parse fails, or a `file`
part parsed into records. -/
inductive PartOutcome
  | readError (msg : String)
  | nonFile (formName : String)
  | fileCsvError (msg : String)
  | fileOk (lines : List (List String))
deriving DecidableEq

/-- The part loop of `handleRequest`: a `NextPart` error yields 500, a CSV
parse error yields 400, a successfully parsed `file` part runs the dispatch
loop — whose per-record outcomes are not observed by the handler — and the
loop continues; once every part is consumed the handler answers 200. -/
def handleParts : List PartOutcome → APIGatewayProxyResponse
  | [] => { statusCode := 200, body := "CSV data processed successfully" }
  | PartOutcome.readError _ :: _ =>
      { statusCode := 500, body := "Error processing file" }
  | PartOutcome.fileCsvError e :: _ =>
      { statusCode := 400, body := "Error reading CSV: " ++ e }
  | PartOutcome.nonFile _ :: rest => handleParts rest
  | PartOutcome.fileOk _ :: rest => handleParts rest

/-- `handleRequest` (main.go lines 72-130), over the abstracted part
outcomes: non-POST methods get 405, otherwise the part loop decides. -/
def handleRequest (httpMethod : String) (parts : List PartOutcome) :
    APIGatewayProxyResponse :=
  if httpMethod ≠ "POST" then { statusCode := 405, body := "" }
  else handleParts parts

/-- A part outcome that triggers neither error return of the part loop. -/
def partClean : PartOutcome → Bool
  | PartOutcome.readError _ => false
  | PartOutcome.fileCsvError _ => false
  | _ => true

/-- Status of one per-record goroutine in the dispatch transition system.
`idle`: not yet spawned; `started`: spawned, before the marshalling of its
item; `marshalled`: item built, before `PutItem`; `putDone`: `PutItem`
returned (either way), deferred calls still pending; `released`: the deferred
semaphore receive ran; `done`: the deferred `wg.Done()` ran. -/
inductive TaskStatus
  | idle
  | started
  | marshalled
  | putDone
  | released
  | done
deriving DecidableEq

/-- Position of the submitting loop inside one iteration: `ready` = about to
run `wg.Add(1)` for the next record (or `wg.Wait()` when none is left),
`added` = after `wg.Add(1)`, about to send on `sem`, `acquired` = holding a
semaphore slot, about to run `go processRecord(..)`. -/
inductive SubPhase
  | ready
  | added
  | acquired
deriving DecidableEq

/-- Static configuration of one dispatch run: the semaphore capacity `cap`
(the code always passes 500, see `mkCfg`), the number `n` of parsed records,
and the collaborator oracles: `marshalOk i` tells whether marshalling record
`i`'s item succeeds, `putOk i` whether its `PutItem` call succeeds. -/
structure Cfg where
  cap : Nat
  n : Nat
  marshalOk : Nat → Bool
  putOk : Nat → Bool

/-- The configuration built by `handleRequest` (main.go line 106):
`sem := make(chan struct{}, 500)`. -/
def mkCfg (n : Nat) (marshalOk putOk : Nat → Bool) : Cfg :=
  { cap := 500, n := n, marshalOk := marshalOk, putOk := putOk }

/-- Mutable state of a dispatch run: the submitter's loop index and phase,
the status of every goroutine, the semaphore occupancy, the `WaitGroup`
counter, the number of `PutItem` calls issued so far, the number of
store-write failure log lines, whether `wg.Wait()` returned, and whether
`os.Exit(1)` killed the process. -/
structure PState where
  subIdx : Nat
  phase : SubPhase
  tasks : List TaskStatus
  semHeld : Nat
  wgCount : Nat
  puts : Nat
  failLogs : Nat
  returned : Bool
  exited : Bool
deriving DecidableEq

/-- Initial state of the dispatch loop: nothing submitted, channel empty,
`WaitGroup` at zero. -/
def initState (cfg : Cfg) : PState :=
  { subIdx := 0
    phase := SubPhase.ready
    tasks := List.replicate cfg.n TaskStatus.idle
    semHeld := 0
    wgCount := 0
    puts := 0
    failLogs := 0
    returned := false
    exited := false }

/-- Enabled moves of the submitting path (main.go lines 111-122). In phase
`ready` it either starts the next iteration with `wg.Add(1)`, or — all
records submitted and the `WaitGroup` counter at zero — returns from
`wg.Wait()`; the send on `sem` is enabled only while fewer than `cap` slots
are held; `go processRecord(..)` marks the record's goroutine `started`. -/
def submitterSuccs (cfg : Cfg) (s : PState) : List PState :=
  if s.returned then []
  else if s.phase = SubPhase.ready then
    (if s.subIdx < s.tasks.length then
      [{ s with wgCount := s.wgCount + 1, phase := SubPhase.added }]
    else if s.wgCount = 0 then
      [{ s with returned := true }]
    else [])
  else if s.phase = SubPhase.added then
    (if s.semHeld < cfg.cap then
      [{ s with semHeld := s.semHeld + 1, phase := SubPhase.acquired }]
    else [])
  else
    [{ s with tasks := s.tasks.set s.subIdx TaskStatus.started,
              subIdx := s.subIdx + 1,
              phase := SubPhase.ready }]

/-- Enabled move of goroutine `i` (the body of `processRecord`): marshalling
(killing the whole process via `os.Exit(1)` when `marshalOk i` is false —
state frozen, deferred calls skipped), the `PutItem` call (counting a failure
log line when `putOk i` is false; both outcomes continue identically), the
deferred semaphore receive (blocking while the channel is empty), and the
deferred `wg.Done()`. -/
def taskStep (cfg : Cfg) (s : PState) (i : Nat) : Option PState :=
  if s.tasks[i]? = some TaskStatus.started then
    (if cfg.marshalOk i then
      some { s with tasks := s.tasks.set i TaskStatus.marshalled }
    else
      some { s with exited := true })
  else if s.tasks[i]? = some TaskStatus.marshalled then
    some { s with tasks := s.tasks.set i TaskStatus.putDone,
                  puts := s.puts + 1,
                  failLogs := s.failLogs + (if cfg.putOk i then 0 else 1) }
  else if s.tasks[i]? = some TaskStatus.putDone then
    (if 1 ≤ s.semHeld then
      some { s with tasks := s.tasks.set i TaskStatus.released,
                    semHeld := s.semHeld - 1 }
    else none)
  else if s.tasks[i]? = some TaskStatus.released then
    some { s with tasks := s.tasks.set i TaskStatus.done,
                  wgCount := s.wgCount - 1 }
  else none

/-- All enabled goroutine moves. -/
def taskSuccs (cfg : Cfg) (s : PState) : List PState :=
  (List.range s.tasks.length).filterMap (taskStep cfg s)

/-- All enabled moves: a dead process (`os.Exit(1)` ran) moves no further;
otherwise the submitter and every goroutine are scheduled preemptively. -/
def succs (cfg : Cfg) (s : PState) : List PState :=
  if s.exited then [] else submitterSuccs cfg s ++ taskSuccs cfg s

/-- One interleaving step of the dispatch run. -/
def Step (cfg : Cfg) (s t : PState) : Prop :=
  t ∈ succs cfg s

instance stepDecidable (cfg : Cfg) (s t : PState) : Decidable (Step cfg s t) :=
  inferInstanceAs (Decidable (t ∈ succs cfg s))

/-- States the dispatch run can be in, from its start, under any
interleaving. -/
def Reachable (cfg : Cfg) (s : PState) : Prop :=
  Relation.ReflTransGen (Step cfg) (initState cfg) s

/-- Follow one chosen successor per step (out-of-range choices stay put);
used to exhibit concrete interleavings. -/
def runPicks (cfg : Cfg) (s : PState) : List Nat → PState
  | [] => s
  | i :: rest => runPicks cfg ((succs cfg s).getD i s) rest

/-- Goroutines currently holding a semaphore slot: spawned and not yet past
the deferred receive. -/
def holdsToken : TaskStatus → Bool
  | TaskStatus.started => true
  | TaskStatus.marshalled => true
  | TaskStatus.putDone => true
  | _ => false

/-- Goroutines counted in the `WaitGroup`: `wg.Add(1)` ran for them (they
were spawned) and their deferred `wg.Done()` has not run. -/
def inFlight : TaskStatus → Bool
  | TaskStatus.idle => false
  | TaskStatus.done => false
  | _ => true

/-- Goroutines whose `PutItem` call has been issued. -/
def reachedPut : TaskStatus → Bool
  | TaskStatus.putDone => true
  | TaskStatus.released => true
  | TaskStatus.done => true
  | _ => false

/-- The inductive invariant of the dispatch transition system, tying the
semaphore occupancy, the `WaitGroup` counter and the `PutItem` count to the
goroutine statuses. -/
structure DInv (cfg : Cfg) (s : PState) : Prop where
  len_eq : s.tasks.length = cfg.n
  idx_le : s.subIdx ≤ cfg.n
  idx_lt : s.phase ≠ SubPhase.ready → s.subIdx < cfg.n
  idle_hi : ∀ i, s.subIdx ≤ i → i < cfg.n → s.tasks[i]? = some TaskStatus.idle
  idle_lo : ∀ i, i < s.subIdx → s.tasks[i]? ≠ some TaskStatus.idle
  sem_eq : s.tasks.countP holdsToken +
    (if s.phase = SubPhase.acquired then 1 else 0) = s.semHeld
  sem_le : s.semHeld ≤ cfg.cap
  wg_eq : s.wgCount = s.tasks.countP inFlight +
    (if s.phase = SubPhase.ready then 0 else 1)
  puts_eq : s.puts = s.tasks.countP reachedPut
  ret_done : s.returned = true → ∀ t ∈ s.tasks, t = TaskStatus.done
  exit_cause : s.exited = true → ∃ i, i < cfg.n ∧ cfg.marshalOk i = false

/-- Number of store-write failures among the first `k` records. -/
def failCount (putOk : Nat → Bool) (k : Nat) : Nat :=
  (List.range k).countP (fun i => !putOk i)

/-- Task statuses along the serial schedule: the first `k` records fully
processed, the rest untouched. -/
def serialTasks (n k : Nat) : List TaskStatus :=
  List.replicate k TaskStatus.done ++ List.replicate (n - k) TaskStatus.idle

/-- Task statuses while record `k` is mid-flight in the serial schedule. -/
def midTasks (n k : Nat) (X : TaskStatus) : List TaskStatus :=
  List.replicate k TaskStatus.done ++
    (X :: List.replicate (n - (k + 1)) TaskStatus.idle)

/-- State of the serial (one record at a time) schedule after the first `k`
records have been fully processed. -/
def serialState (cfg : Cfg) (k : Nat) : PState :=
  { subIdx := k
    phase := SubPhase.ready
    tasks := serialTasks cfg.n k
    semHeld := 0
    wgCount := 0
    puts := k
    failLogs := failCount cfg.putOk k
    returned := false
    exited := false }

/-- The completed run: every record processed and `wg.Wait()` returned. -/
def finalState (cfg : Cfg) : PState :=
  { serialState cfg cfg.n with returned := true }

/-- Shape of every reachable state when the semaphore capacity is zero and at
least one record exists: the first send on `sem` blocks forever, so no record
is ever handed to a goroutine, no `PutItem` happens, and `wg.Wait()` is never
reached. -/
def ZeroCapStuck (cfg : Cfg) (s : PState) : Prop :=
  s.subIdx = 0 ∧ s.phase ≠ SubPhase.acquired ∧ s.semHeld = 0 ∧
  s.tasks = List.replicate cfg.n TaskStatus.idle ∧ s.puts = 0 ∧
  s.returned = false ∧ s.exited = false

/-- Configuration of the spec's Scenario D: ten records, building the item
(marshalling) fails on the 4th record (index 3), every store write would
succeed. -/
def cfgD : Cfg := mkCfg 10 (fun i => !(i == 3)) (fun _ => true)

/-- A legal interleaving of `cfgD`: the submitter dispatches records 1-5,
then the 5th record's goroutine (index 4) marshals and issues its `PutItem`,
then record 4's goroutine (index 3) hits its marshalling error and
`os.Exit(1)` kills the process. -/
def stD : PState :=
  runPicks cfgD (initState cfgD)
    [0, 0, 0, 0, 0, 0, 0, 0, 0, 0, 0, 0, 0, 0, 0, 5, 5, 4]

/-- A one-record configuration whose single marshalling fails. -/
def cfgW4 : Cfg := mkCfg 1 (fun _ => false) (fun _ => true)

/-- Its run: dispatch record 1, whose goroutine exits the process. -/
def stW4 : PState := runPicks cfgW4 (initState cfgW4) [0, 0, 0, 0]

/-- A dispatch configuration with semaphore capacity 0 and one record
(possible only in the generalised model: the code hard-codes capacity 500
and has no capacity validation whatsoever). -/
def cfgZ : Cfg :=
  { cap := 0, n := 1, marshalOk := fun _ => true, putOk := fun _ => true }

/-- The only possible move under `cfgZ`: the submitter runs `wg.Add(1)` and
then blocks forever on the send into the zero-capacity channel. -/
def stZ : PState := runPicks cfgZ (initState cfgZ) [0]

/-- The spec's Scenario C: ten records, all marshalling fine, the first two
store writes fail. -/
def scenarioC : Cfg := mkCfg 10 (fun _ => true) (fun i => decide (2 ≤ i))

lemma findBoundary_eq_find? (l : List String) :
    findBoundary l =
      (match (l.map goTrimSpace).find? (fun q => "boundary=".data.isPrefixOf q.data) with
        | some q => String.mk (q.data.drop 9)
        | none => "") := by
  induction l with
  | nil => rfl
  | cons p rest ih =>
      rw [List.map_cons]
      by_cases hp : "boundary=".data.isPrefixOf (goTrimSpace p).data = true
      · rw [List.find?_cons_of_pos
            (p := fun q : String => "boundary=".data.isPrefixOf q.data) _ hp]
        show (if "boundary=".data.isPrefixOf (goTrimSpace p).data then
            String.mk ((goTrimSpace p).data.drop 9) else findBoundary rest) = _
        rw [if_pos hp]
      · rw [List.find?_cons_of_neg
            (p := fun q : String => "boundary=".data.isPrefixOf q.data) _ hp]
        show (if "boundary=".data.isPrefixOf (goTrimSpace p).data then
            String.mk ((goTrimSpace p).data.drop 9) else findBoundary rest) = _
        rw [if_neg hp]
        exact ih

lemma reachable_runPicks (cfg : Cfg) (picks : List Nat) (s : PState)
    (h : Reachable cfg s) : Reachable cfg (runPicks cfg s picks) := by
  induction picks generalizing s with
  | nil => exact h
  | cons i rest ih =>
      apply ih
      by_cases hlt : i < (succs cfg s).length
      · refine h.tail ?_
        show (succs cfg s).getD i s ∈ succs cfg s
        rw [List.getD_eq_getElem _ _ hlt]
        exact List.getElem_mem hlt
      · rw [List.getD_eq_default _ _ (by omega)]
        exact h

lemma countP_set_bits {α : Type _} {l : List α} {i : Nat} {a : α}
    (hget : l[i]? = some a) (b : α) (p : α → Bool) :
    (l.set i b).countP p + (if p a = true then 1 else 0) =
      l.countP p + (if p b = true then 1 else 0) := by
  obtain ⟨hlt, hval⟩ := List.getElem?_eq_some.mp hget
  subst hval
  have hpos : p l[i] = true → 1 ≤ l.countP p := fun hp =>
    List.countP_pos_iff.mpr ⟨l[i], List.getElem_mem hlt, hp⟩
  by_cases hpa : p l[i] = true
  · have h1 := hpos hpa
    simp only [List.countP_set p l i b hlt, hpa, if_true]
    omega
  · simp [List.countP_set p l i b hlt, hpa]

lemma inv_init (cfg : Cfg) : DInv cfg (initState cfg) := by
  refine ⟨?_, ?_, ?_, ?_, ?_, ?_, ?_, ?_, ?_, ?_, ?_⟩
  · exact List.length_replicate cfg.n TaskStatus.idle
  · exact Nat.zero_le _
  · intro h
    exact absurd rfl h
  · intro i _ hi
    show (List.replicate cfg.n TaskStatus.idle)[i]? = some TaskStatus.idle
    rw [List.getElem?_replicate, if_pos hi]
  · intro i hi
    exact absurd hi (Nat.not_lt_zero i)
  · show (List.replicate cfg.n TaskStatus.idle).countP holdsToken +
      (if SubPhase.ready = SubPhase.acquired then 1 else 0) = 0
    simp [List.countP_replicate, holdsToken]
  · exact Nat.zero_le _
  · show 0 = (List.replicate cfg.n TaskStatus.idle).countP inFlight +
      (if SubPhase.ready = SubPhase.ready then 0 else 1)
    simp [List.countP_replicate, inFlight]
  · show 0 = (List.replicate cfg.n TaskStatus.idle).countP reachedPut
    simp [List.countP_replicate, reachedPut]
  · intro h
    exact absurd h (by simp [initState])
  · intro h
    exact absurd h (by simp [initState])

lemma lt_subIdx_of_status {cfg : Cfg} {s : PState} (hs : DInv cfg s) {i : Nat}
    {st : TaskStatus} (hgt : s.tasks[i]? = some st)
    (hne : st ≠ TaskStatus.idle) : i < s.subIdx := by
  by_contra hc
  push_neg at hc
  have hilt : i < s.tasks.length := (List.getElem?_eq_some.mp hgt).1
  have h := hs.idle_hi i hc (hs.len_eq ▸ hilt)
  rw [hgt] at h
  exact hne (Option.some.inj h)

lemma not_returned_of_status {cfg : Cfg} {s : PState} (hs : DInv cfg s)
    {i : Nat} {st : TaskStatus} (hgt : s.tasks[i]? = some st)
    (hne : st ≠ TaskStatus.done) : s.returned ≠ true := by
  intro hr
  have hilt : i < s.tasks.length := (List.getElem?_eq_some.mp hgt).1
  have h := hs.ret_done hr (s.tasks[i]) (List.getElem_mem hilt)
  rw [(List.getElem?_eq_some.mp hgt).2] at h
  exact hne h

theorem inv_step {cfg : Cfg} {s t : PState} (hs : DInv cfg s)
    (ht : Step cfg s t) : DInv cfg t := by
  unfold Step succs at ht
  by_cases hex : s.exited = true
  · rw [if_pos hex] at ht
    cases ht
  · rw [if_neg hex] at ht
    rcases List.mem_append.mp ht with hsub | htask
    · -- a submitter move
      unfold submitterSuccs at hsub
      by_cases hret : s.returned = true
      · rw [if_pos hret] at hsub
        cases hsub
      · rw [if_neg hret] at hsub
        by_cases hph : s.phase = SubPhase.ready
        · rw [if_pos hph] at hsub
          by_cases hidx : s.subIdx < s.tasks.length
          · -- wg.Add(1)
            rw [if_pos hidx] at hsub
            obtain rfl := List.mem_singleton.mp hsub
            refine ⟨hs.len_eq, hs.idx_le, ?_, hs.idle_hi, hs.idle_lo, ?_,
              hs.sem_le, ?_, hs.puts_eq, ?_, ?_⟩
            · intro _
              exact hs.len_eq ▸ hidx
            · show s.tasks.countP holdsToken +
                (if SubPhase.added = SubPhase.acquired then 1 else 0) = s.semHeld
              have h := hs.sem_eq
              rw [hph] at h
              simpa using h
            · show s.wgCount + 1 = s.tasks.countP inFlight +
                (if SubPhase.added = SubPhase.ready then 0 else 1)
              have h := hs.wg_eq
              rw [hph] at h
              simp at h ⊢
              omega
            · intro hr
              exact absurd hr hret
            · intro hx
              exact absurd hx hex
          · rw [if_neg hidx] at hsub
            by_cases hwg : s.wgCount = 0
            · -- wg.Wait() returns
              rw [if_pos hwg] at hsub
              obtain rfl := List.mem_singleton.mp hsub
              refine ⟨hs.len_eq, hs.idx_le, ?_, hs.idle_hi, hs.idle_lo,
                hs.sem_eq, hs.sem_le, hs.wg_eq, hs.puts_eq, ?_, ?_⟩
              · intro hne
                exact absurd hph hne
              · intro _ t' hmem
                have h := hs.wg_eq
                rw [hph] at h
                simp at h
                have hcp : s.tasks.countP inFlight = 0 := by omega
                have hnf := List.countP_eq_zero.mp hcp t' hmem
                obtain ⟨j, hj⟩ := List.mem_iff_getElem?.mp hmem
                have hjlt : j < s.tasks.length := (List.getElem?_eq_some.mp hj).1
                cases t' with
                | idle => exact absurd hj (hs.idle_lo j (by omega))
                | done => rfl
                | started => simp [inFlight] at hnf
                | marshalled => simp [inFlight] at hnf
                | putDone => simp [inFlight] at hnf
                | released => simp [inFlight] at hnf
              · intro hx
                exact absurd hx hex
            · rw [if_neg hwg] at hsub
              cases hsub
        · rw [if_neg hph] at hsub
          by_cases hph2 : s.phase = SubPhase.added
          · -- sem <- struct{}{}
            rw [if_pos hph2] at hsub
            by_cases hsem : s.semHeld < cfg.cap
            · rw [if_pos hsem] at hsub
              obtain rfl := List.mem_singleton.mp hsub
              refine ⟨hs.len_eq, hs.idx_le, ?_, hs.idle_hi, hs.idle_lo, ?_, ?_,
                ?_, hs.puts_eq, ?_, ?_⟩
              · intro _
                exact hs.idx_lt hph
              · show s.tasks.countP holdsToken +
                  (if SubPhase.acquired = SubPhase.acquired then 1 else 0) =
                    s.semHeld + 1
                have h := hs.sem_eq
                rw [hph2] at h
                simp at h ⊢
                omega
              · show s.semHeld + 1 ≤ cfg.cap
                omega
              · show s.wgCount = s.tasks.countP inFlight +
                  (if SubPhase.acquired = SubPhase.ready then 0 else 1)
                have h := hs.wg_eq
                rw [hph2] at h
                simp at h ⊢
                omega
              · intro hr
                exact absurd hr hret
              · intro hx
                exact absurd hx hex
            · rw [if_neg hsem] at hsub
              cases hsub
          · -- go processRecord(..)
            rw [if_neg hph2] at hsub
            have hacq : s.phase = SubPhase.acquired := by
              cases hq : s.phase <;> simp_all
            obtain rfl := List.mem_singleton.mp hsub
            have hlt : s.subIdx < cfg.n := hs.idx_lt hph
            have hltl : s.subIdx < s.tasks.length := by
              have := hs.len_eq
              omega
            have hget : s.tasks[s.subIdx]? = some TaskStatus.idle :=
              hs.idle_hi s.subIdx (Nat.le_refl _) hlt
            refine ⟨?_, ?_, ?_, ?_, ?_, ?_, hs.sem_le, ?_, ?_, ?_, ?_⟩
            · show (s.tasks.set s.subIdx TaskStatus.started).length = cfg.n
              rw [List.length_set]
              exact hs.len_eq
            · show s.subIdx + 1 ≤ cfg.n
              omega
            · intro hne
              exact absurd rfl hne
            · intro j hge hj
              have hge' : s.subIdx + 1 ≤ j := hge
              show (s.tasks.set s.subIdx TaskStatus.started)[j]? =
                some TaskStatus.idle
              rw [List.getElem?_set, if_neg (by omega)]
              exact hs.idle_hi j (by omega) hj
            · intro j hj
              have hj' : j < s.subIdx + 1 := hj
              show (s.tasks.set s.subIdx TaskStatus.started)[j]? ≠
                some TaskStatus.idle
              rw [List.getElem?_set]
              by_cases hij : s.subIdx = j
              · rw [if_pos hij, if_pos hltl]
                simp
              · rw [if_neg hij]
                exact hs.idle_lo j (by omega)
            · show (s.tasks.set s.subIdx TaskStatus.started).countP holdsToken +
                (if SubPhase.ready = SubPhase.acquired then 1 else 0) = s.semHeld
              have hb := countP_set_bits hget TaskStatus.started holdsToken
              simp [holdsToken] at hb
              have h := hs.sem_eq
              rw [hacq] at h
              simp at h ⊢
              omega
            · show s.wgCount =
                (s.tasks.set s.subIdx TaskStatus.started).countP inFlight +
                (if SubPhase.ready = SubPhase.ready then 0 else 1)
              have hb := countP_set_bits hget TaskStatus.started inFlight
              simp [inFlight] at hb
              have h := hs.wg_eq
              rw [hacq] at h
              simp at h ⊢
              omega
            · show s.puts =
                (s.tasks.set s.subIdx TaskStatus.started).countP reachedPut
              have hb := countP_set_bits hget TaskStatus.started reachedPut
              simp [reachedPut] at hb
              have h := hs.puts_eq
              omega
            · intro hr
              exact absurd hr hret
            · intro hx
              exact absurd hx hex
    · -- a goroutine move
      unfold taskSuccs at htask
      obtain ⟨i, hmem, hstep⟩ := List.mem_filterMap.mp htask
      have hilt : i < s.tasks.length := List.mem_range.mp hmem
      unfold taskStep at hstep
      by_cases hst : s.tasks[i]? = some TaskStatus.started
      · rw [if_pos hst] at hstep
        by_cases hm : cfg.marshalOk i = true
        · -- marshalling succeeds
          rw [if_pos hm] at hstep
          obtain rfl := Option.some.inj hstep
          have hii : i < s.subIdx := lt_subIdx_of_status hs hst (by simp)
          refine ⟨?_, hs.idx_le, hs.idx_lt, ?_, ?_, ?_, hs.sem_le, ?_, ?_, ?_, ?_⟩
          · show (s.tasks.set i TaskStatus.marshalled).length = cfg.n
            rw [List.length_set]
            exact hs.len_eq
          · intro j hge hj
            have hge' : s.subIdx ≤ j := hge
            show (s.tasks.set i TaskStatus.marshalled)[j]? = some TaskStatus.idle
            rw [List.getElem?_set, if_neg (by omega)]
            exact hs.idle_hi j hge hj
          · intro j hj
            show (s.tasks.set i TaskStatus.marshalled)[j]? ≠ some TaskStatus.idle
            rw [List.getElem?_set]
            by_cases hij : i = j
            · rw [if_pos hij, if_pos hilt]
              simp
            · rw [if_neg hij]
              exact hs.idle_lo j hj
          · show (s.tasks.set i TaskStatus.marshalled).countP holdsToken +
              (if s.phase = SubPhase.acquired then 1 else 0) = s.semHeld
            have hb := countP_set_bits hst TaskStatus.marshalled holdsToken
            simp [holdsToken] at hb
            have h := hs.sem_eq
            omega
          · show s.wgCount =
              (s.tasks.set i TaskStatus.marshalled).countP inFlight +
              (if s.phase = SubPhase.ready then 0 else 1)
            have hb := countP_set_bits hst TaskStatus.marshalled inFlight
            simp [inFlight] at hb
            have h := hs.wg_eq
            omega
          · show s.puts = (s.tasks.set i TaskStatus.marshalled).countP reachedPut
            have hb := countP_set_bits hst TaskStatus.marshalled reachedPut
            simp [reachedPut] at hb
            have h := hs.puts_eq
            omega
          · intro hr
            have hr' : s.returned = true := hr
            exact absurd hr' (not_returned_of_status hs hst (by simp))
          · intro hx
            exact hs.exit_cause hx
        · -- marshalling fails: os.Exit(1)
          rw [if_neg hm] at hstep
          obtain rfl := Option.some.inj hstep
          refine ⟨hs.len_eq, hs.idx_le, hs.idx_lt, hs.idle_hi, hs.idle_lo,
            hs.sem_eq, hs.sem_le, hs.wg_eq, hs.puts_eq, ?_, ?_⟩
          · intro hr
            exact hs.ret_done hr
          · intro _
            refine ⟨i, hs.len_eq ▸ hilt, ?_⟩
            revert hm
            cases cfg.marshalOk i <;> simp
      · rw [if_neg hst] at hstep
        by_cases hmar : s.tasks[i]? = some TaskStatus.marshalled
        · -- svc.PutItem(input)
          rw [if_pos hmar] at hstep
          obtain rfl := Option.some.inj hstep
          have hii : i < s.subIdx := lt_subIdx_of_status hs hmar (by simp)
          refine ⟨?_, hs.idx_le, hs.idx_lt, ?_, ?_, ?_, hs.sem_le, ?_, ?_, ?_, ?_⟩
          · show (s.tasks.set i TaskStatus.putDone).length = cfg.n
            rw [List.length_set]
            exact hs.len_eq
          · intro j hge hj
            have hge' : s.subIdx ≤ j := hge
            show (s.tasks.set i TaskStatus.putDone)[j]? = some TaskStatus.idle
            rw [List.getElem?_set, if_neg (by omega)]
            exact hs.idle_hi j hge hj
          · intro j hj
            show (s.tasks.set i TaskStatus.putDone)[j]? ≠ some TaskStatus.idle
            rw [List.getElem?_set]
            by_cases hij : i = j
            · rw [if_pos hij, if_pos hilt]
              simp
            · rw [if_neg hij]
              exact hs.idle_lo j hj
          · show (s.tasks.set i TaskStatus.putDone).countP holdsToken +
              (if s.phase = SubPhase.acquired then 1 else 0) = s.semHeld
            have hb := countP_set_bits hmar TaskStatus.putDone holdsToken
            simp [holdsToken] at hb
            have h := hs.sem_eq
            omega
          · show s.wgCount =
              (s.tasks.set i TaskStatus.putDone).countP inFlight +
              (if s.phase = SubPhase.ready then 0 else 1)
            have hb := countP_set_bits hmar TaskStatus.putDone inFlight
            simp [inFlight] at hb
            have h := hs.wg_eq
            omega
          · show s.puts + 1 = (s.tasks.set i TaskStatus.putDone).countP reachedPut
            have hb := countP_set_bits hmar TaskStatus.putDone reachedPut
            simp [reachedPut] at hb
            have h := hs.puts_eq
            omega
          · intro hr
            have hr' : s.returned = true := hr
            exact absurd hr' (not_returned_of_status hs hmar (by simp))
          · intro hx
            exact hs.exit_cause hx
        · rw [if_neg hmar] at hstep
          by_cases hpd : s.tasks[i]? = some TaskStatus.putDone
          · -- deferred semaphore release
            rw [if_pos hpd] at hstep
            by_cases hsem : 1 ≤ s.semHeld
            · rw [if_pos hsem] at hstep
              obtain rfl := Option.some.inj hstep
              have hii : i < s.subIdx := lt_subIdx_of_status hs hpd (by simp)
              refine ⟨?_, hs.idx_le, hs.idx_lt, ?_, ?_, ?_, ?_, ?_, ?_, ?_, ?_⟩
              · show (s.tasks.set i TaskStatus.released).length = cfg.n
                rw [List.length_set]
                exact hs.len_eq
              · intro j hge hj
                have hge' : s.subIdx ≤ j := hge
                show (s.tasks.set i TaskStatus.released)[j]? =
                  some TaskStatus.idle
                rw [List.getElem?_set, if_neg (by omega)]
                exact hs.idle_hi j hge hj
              · intro j hj
                show (s.tasks.set i TaskStatus.released)[j]? ≠
                  some TaskStatus.idle
                rw [List.getElem?_set]
                by_cases hij : i = j
                · rw [if_pos hij, if_pos hilt]
                  simp
                · rw [if_neg hij]
                  exact hs.idle_lo j hj
              · show (s.tasks.set i TaskStatus.released).countP holdsToken +
                  (if s.phase = SubPhase.acquired then 1 else 0) = s.semHeld - 1
                have hb := countP_set_bits hpd TaskStatus.released holdsToken
                simp [holdsToken] at hb
                have h := hs.sem_eq
                omega
              · show s.semHeld - 1 ≤ cfg.cap
                have h := hs.sem_le
                omega
              · show s.wgCount =
                  (s.tasks.set i TaskStatus.released).countP inFlight +
                  (if s.phase = SubPhase.ready then 0 else 1)
                have hb := countP_set_bits hpd TaskStatus.released inFlight
                simp [inFlight] at hb
                have h := hs.wg_eq
                omega
              · show s.puts =
                  (s.tasks.set i TaskStatus.released).countP reachedPut
                have hb := countP_set_bits hpd TaskStatus.released reachedPut
                simp [reachedPut] at hb
                have h := hs.puts_eq
                omega
              · intro hr
                have hr' : s.returned = true := hr
                exact absurd hr' (not_returned_of_status hs hpd (by simp))
              · intro hx
                exact hs.exit_cause hx
            · rw [if_neg hsem] at hstep
              exact Option.noConfusion hstep
          · rw [if_neg hpd] at hstep
            by_cases hrl : s.tasks[i]? = some TaskStatus.released
            · -- deferred wg.Done()
              rw [if_pos hrl] at hstep
              obtain rfl := Option.some.inj hstep
              have hii : i < s.subIdx := lt_subIdx_of_status hs hrl (by simp)
              refine ⟨?_, hs.idx_le, hs.idx_lt, ?_, ?_, ?_, hs.sem_le, ?_, ?_,
                ?_, ?_⟩
              · show (s.tasks.set i TaskStatus.done).length = cfg.n
                rw [List.length_set]
                exact hs.len_eq
              · intro j hge hj
                have hge' : s.subIdx ≤ j := hge
                show (s.tasks.set i TaskStatus.done)[j]? = some TaskStatus.idle
                rw [List.getElem?_set, if_neg (by omega)]
                exact hs.idle_hi j hge hj
              · intro j hj
                show (s.tasks.set i TaskStatus.done)[j]? ≠ some TaskStatus.idle
                rw [List.getElem?_set]
                by_cases hij : i = j
                · rw [if_pos hij, if_pos hilt]
                  simp
                · rw [if_neg hij]
                  exact hs.idle_lo j hj
              · show (s.tasks.set i TaskStatus.done).countP holdsToken +
                  (if s.phase = SubPhase.acquired then 1 else 0) = s.semHeld
                have hb := countP_set_bits hrl TaskStatus.done holdsToken
                simp [holdsToken] at hb
                have h := hs.sem_eq
                omega
              · show s.wgCount - 1 =
                  (s.tasks.set i TaskStatus.done).countP inFlight +
                  (if s.phase = SubPhase.ready then 0 else 1)
                have hb := countP_set_bits hrl TaskStatus.done inFlight
                simp [inFlight] at hb
                have h := hs.wg_eq
                omega
              · show s.puts = (s.tasks.set i TaskStatus.done).countP reachedPut
                have hb := countP_set_bits hrl TaskStatus.done reachedPut
                simp [reachedPut] at hb
                have h := hs.puts_eq
                omega
              · intro hr
                have hr' : s.returned = true := hr
                exact absurd hr' (not_returned_of_status hs hrl (by simp))
              · intro hx
                exact hs.exit_cause hx
            · rw [if_neg hrl] at hstep
              exact Option.noConfusion hstep

theorem inv_reachable {cfg : Cfg} {s : PState} (h : Reachable cfg s) :
    DInv cfg s := by
  induction h with
  | refl => exact inv_init cfg
  | tail _ hstep ih => exact inv_step ih hstep

lemma step_submitter {cfg : Cfg} {s t : PState} (hex : s.exited = false)
    (h : t ∈ submitterSuccs cfg s) : Step cfg s t := by
  unfold Step succs
  rw [if_neg (by rw [hex]; simp)]
  exact List.mem_append_left _ h

lemma step_task {cfg : Cfg} {s t : PState} {i : Nat} (hex : s.exited = false)
    (hi : i < s.tasks.length) (h : taskStep cfg s i = some t) :
    Step cfg s t := by
  unfold Step succs
  rw [if_neg (by rw [hex]; simp)]
  refine List.mem_append_right _ ?_
  unfold taskSuccs
  exact List.mem_filterMap.mpr ⟨i, List.mem_range.mpr hi, h⟩

lemma step_add_ready {cfg : Cfg} {s : PState} (hex : s.exited = false)
    (hret : s.returned = false) (hph : s.phase = SubPhase.ready)
    (hidx : s.subIdx < s.tasks.length) :
    Step cfg s { s with wgCount := s.wgCount + 1, phase := SubPhase.added } := by
  apply step_submitter hex
  unfold submitterSuccs
  rw [if_neg (by simp [hret]), if_pos hph, if_pos hidx]
  exact List.mem_singleton.mpr rfl

lemma step_ret_ready {cfg : Cfg} {s : PState} (hex : s.exited = false)
    (hret : s.returned = false) (hph : s.phase = SubPhase.ready)
    (hidx : ¬ s.subIdx < s.tasks.length) (hwg : s.wgCount = 0) :
    Step cfg s { s with returned := true } := by
  apply step_submitter hex
  unfold submitterSuccs
  rw [if_neg (by simp [hret]), if_pos hph, if_neg hidx, if_pos hwg]
  exact List.mem_singleton.mpr rfl

lemma step_acquire {cfg : Cfg} {s : PState} (hex : s.exited = false)
    (hret : s.returned = false) (hph : s.phase = SubPhase.added)
    (hsem : s.semHeld < cfg.cap) :
    Step cfg s
      { s with semHeld := s.semHeld + 1, phase := SubPhase.acquired } := by
  apply step_submitter hex
  unfold submitterSuccs
  rw [if_neg (by simp [hret]), if_neg (by simp [hph]), if_pos hph, if_pos hsem]
  exact List.mem_singleton.mpr rfl

lemma step_spawn {cfg : Cfg} {s : PState} (hex : s.exited = false)
    (hret : s.returned = false) (hph : s.phase = SubPhase.acquired) :
    Step cfg s
      { s with tasks := s.tasks.set s.subIdx TaskStatus.started,
               subIdx := s.subIdx + 1, phase := SubPhase.ready } := by
  apply step_submitter hex
  unfold submitterSuccs
  rw [if_neg (by simp [hret]), if_neg (by simp [hph]), if_neg (by simp [hph])]
  exact List.mem_singleton.mpr rfl

lemma step_marshal_ok {cfg : Cfg} {s : PState} {i : Nat}
    (hex : s.exited = false) (hget : s.tasks[i]? = some TaskStatus.started)
    (hm : cfg.marshalOk i = true) :
    Step cfg s { s with tasks := s.tasks.set i TaskStatus.marshalled } := by
  refine step_task hex (List.getElem?_eq_some.mp hget).1 ?_
  unfold taskStep
  rw [if_pos hget, if_pos hm]

lemma step_marshal_fail {cfg : Cfg} {s : PState} {i : Nat}
    (hex : s.exited = false) (hget : s.tasks[i]? = some TaskStatus.started)
    (hm : cfg.marshalOk i = false) :
    Step cfg s { s with exited := true } := by
  refine step_task hex (List.getElem?_eq_some.mp hget).1 ?_
  unfold taskStep
  rw [if_pos hget, if_neg (by simp [hm])]

lemma step_put {cfg : Cfg} {s : PState} {i : Nat}
    (hex : s.exited = false)
    (hget : s.tasks[i]? = some TaskStatus.marshalled) :
    Step cfg s
      { s with tasks := s.tasks.set i TaskStatus.putDone,
               puts := s.puts + 1,
               failLogs := s.failLogs + (if cfg.putOk i then 0 else 1) } := by
  refine step_task hex (List.getElem?_eq_some.mp hget).1 ?_
  unfold taskStep
  rw [if_neg (by simp [hget]), if_pos hget]

lemma step_release {cfg : Cfg} {s : PState} {i : Nat}
    (hex : s.exited = false) (hget : s.tasks[i]? = some TaskStatus.putDone)
    (hsem : 1 ≤ s.semHeld) :
    Step cfg s
      { s with tasks := s.tasks.set i TaskStatus.released,
               semHeld := s.semHeld - 1 } := by
  refine step_task hex (List.getElem?_eq_some.mp hget).1 ?_
  unfold taskStep
  rw [if_neg (by simp [hget]), if_neg (by simp [hget]), if_pos hget,
    if_pos hsem]

lemma step_wgdone {cfg : Cfg} {s : PState} {i : Nat}
    (hex : s.exited = false) (hget : s.tasks[i]? = some TaskStatus.released) :
    Step cfg s
      { s with tasks := s.tasks.set i TaskStatus.done,
               wgCount := s.wgCount - 1 } := by
  refine step_task hex (List.getElem?_eq_some.mp hget).1 ?_
  unfold taskStep
  rw [if_neg (by simp [hget]), if_neg (by simp [hget]),
    if_neg (by simp [hget]), if_pos hget]

lemma serialTasks_length (n k : Nat) (hk : k ≤ n) :
    (serialTasks n k).length = n := by
  unfold serialTasks
  rw [List.length_append, List.length_replicate, List.length_replicate]
  omega

lemma serialTasks_eq_mid (n k : Nat) (hk : k < n) :
    serialTasks n k = midTasks n k TaskStatus.idle := by
  unfold serialTasks midTasks
  have h : n - k = (n - (k + 1)) + 1 := by omega
  rw [h, List.replicate_succ]

lemma midTasks_set (n k : Nat) (X Y : TaskStatus) :
    (midTasks n k X).set k Y = midTasks n k Y := by
  unfold midTasks
  rw [List.set_append, List.length_replicate, if_neg (by omega), Nat.sub_self]
  rfl

lemma midTasks_get (n k : Nat) (X : TaskStatus) :
    (midTasks n k X)[k]? = some X := by
  unfold midTasks
  rw [List.getElem?_append, List.length_replicate, if_neg (by omega),
    Nat.sub_self]
  simp

lemma midTasks_done (n k : Nat) :
    midTasks n k TaskStatus.done = serialTasks n (k + 1) := by
  unfold midTasks serialTasks
  rw [List.replicate_succ', List.append_assoc]
  rfl

lemma failCount_succ (putOk : Nat → Bool) (k : Nat) :
    failCount putOk (k + 1) =
      failCount putOk k + (if putOk k then 0 else 1) := by
  unfold failCount
  rw [List.range_succ, List.countP_append]
  cases hpk : putOk k <;> simp [hpk, List.countP_cons]

lemma serial_step (cfg : Cfg) (k : Nat) (hk : k < cfg.n) (hcap : 1 ≤ cfg.cap)
    (hm : cfg.marshalOk k = true) (h0 : Reachable cfg (serialState cfg k)) :
    Reachable cfg (serialState cfg (k + 1)) := by
  have hidx : (serialState cfg k).subIdx < (serialState cfg k).tasks.length := by
    show k < (serialTasks cfg.n k).length
    rw [serialTasks_length cfg.n k (Nat.le_of_lt hk)]
    exact hk
  have h1 : Reachable cfg
      { subIdx := k, phase := SubPhase.added, tasks := serialTasks cfg.n k,
        semHeld := 0, wgCount := 1, puts := k,
        failLogs := failCount cfg.putOk k, returned := false,
        exited := false } :=
    h0.tail (step_add_ready rfl rfl rfl hidx)
  have h2 : Reachable cfg
      { subIdx := k, phase := SubPhase.acquired, tasks := serialTasks cfg.n k,
        semHeld := 1, wgCount := 1, puts := k,
        failLogs := failCount cfg.putOk k, returned := false,
        exited := false } :=
    h1.tail (step_acquire rfl rfl rfl (by show 0 < cfg.cap; omega))
  have h3 : Reachable cfg
      { subIdx := k + 1, phase := SubPhase.ready,
        tasks := (serialTasks cfg.n k).set k TaskStatus.started,
        semHeld := 1, wgCount := 1, puts := k,
        failLogs := failCount cfg.putOk k, returned := false,
        exited := false } :=
    h2.tail (step_spawn rfl rfl rfl)
  have hg3 : ((serialTasks cfg.n k).set k TaskStatus.started)[k]? =
      some TaskStatus.started := by
    rw [serialTasks_eq_mid cfg.n k hk, midTasks_set, midTasks_get]
  have h4 : Reachable cfg
      { subIdx := k + 1, phase := SubPhase.ready,
        tasks := ((serialTasks cfg.n k).set k TaskStatus.started).set k
          TaskStatus.marshalled,
        semHeld := 1, wgCount := 1, puts := k,
        failLogs := failCount cfg.putOk k, returned := false,
        exited := false } :=
    h3.tail (step_marshal_ok rfl hg3 hm)
  have hg4 : (((serialTasks cfg.n k).set k TaskStatus.started).set k
      TaskStatus.marshalled)[k]? = some TaskStatus.marshalled := by
    rw [serialTasks_eq_mid cfg.n k hk, midTasks_set, midTasks_set, midTasks_get]
  have h5 : Reachable cfg
      { subIdx := k + 1, phase := SubPhase.ready,
        tasks := (((serialTasks cfg.n k).set k TaskStatus.started).set k
          TaskStatus.marshalled).set k TaskStatus.putDone,
        semHeld := 1, wgCount := 1, puts := k + 1,
        failLogs := failCount cfg.putOk k + (if cfg.putOk k then 0 else 1),
        returned := false, exited := false } :=
    h4.tail (step_put rfl hg4)
  have hg5 : ((((serialTasks cfg.n k).set k TaskStatus.started).set k
      TaskStatus.marshalled).set k TaskStatus.putDone)[k]? =
      some TaskStatus.putDone := by
    rw [serialTasks_eq_mid cfg.n k hk, midTasks_set, midTasks_set, midTasks_set,
      midTasks_get]
  have h6 : Reachable cfg
      { subIdx := k + 1, phase := SubPhase.ready,
        tasks := ((((serialTasks cfg.n k).set k TaskStatus.started).set k
          TaskStatus.marshalled).set k TaskStatus.putDone).set k
          TaskStatus.released,
        semHeld := 0, wgCount := 1, puts := k + 1,
        failLogs := failCount cfg.putOk k + (if cfg.putOk k then 0 else 1),
        returned := false, exited := false } :=
    h5.tail (step_release rfl hg5 (by show 1 ≤ 1; omega))
  have hg6 : (((((serialTasks cfg.n k).set k TaskStatus.started).set k
      TaskStatus.marshalled).set k TaskStatus.putDone).set k
      TaskStatus.released)[k]? = some TaskStatus.released := by
    rw [serialTasks_eq_mid cfg.n k hk, midTasks_set, midTasks_set, midTasks_set,
      midTasks_set, midTasks_get]
  have h7 : Reachable cfg
      { subIdx := k + 1, phase := SubPhase.ready,
        tasks := (((((serialTasks cfg.n k).set k TaskStatus.started).set k
          TaskStatus.marshalled).set k TaskStatus.putDone).set k
          TaskStatus.released).set k TaskStatus.done,
        semHeld := 0, wgCount := 0, puts := k + 1,
        failLogs := failCount cfg.putOk k + (if cfg.putOk k then 0 else 1),
        returned := false, exited := false } :=
    h6.tail (step_wgdone rfl hg6)
  have heq : (((((serialTasks cfg.n k).set k TaskStatus.started).set k
      TaskStatus.marshalled).set k TaskStatus.putDone).set k
      TaskStatus.released).set k TaskStatus.done = serialTasks cfg.n (k + 1) := by
    rw [serialTasks_eq_mid cfg.n k hk, midTasks_set, midTasks_set, midTasks_set,
      midTasks_set, midTasks_set, midTasks_done]
  have hfc := failCount_succ cfg.putOk k
  unfold serialState
  rw [hfc, ← heq]
  exact h7

lemma serialState_zero (cfg : Cfg) : serialState cfg 0 = initState cfg := by
  unfold serialState initState serialTasks failCount
  simp

lemma serial_reachable (cfg : Cfg) (hcap : 1 ≤ cfg.cap)
    (hm : ∀ i, i < cfg.n → cfg.marshalOk i = true) :
    ∀ k, k ≤ cfg.n → Reachable cfg (serialState cfg k) := by
  intro k
  induction k with
  | zero =>
      intro _
      rw [serialState_zero]
      exact Relation.ReflTransGen.refl
  | succ k ih =>
      intro hk1
      exact serial_step cfg k (by omega) hcap (hm k (by omega))
        (ih (by omega))

lemma final_step (cfg : Cfg) :
    Step cfg (serialState cfg cfg.n) (finalState cfg) := by
  apply step_ret_ready rfl rfl rfl ?_ rfl
  show ¬ cfg.n < (serialTasks cfg.n cfg.n).length
  rw [serialTasks_length cfg.n cfg.n (Nat.le_refl _)]
  omega

lemma final_reachable (cfg : Cfg) (hcap : 1 ≤ cfg.cap)
    (hm : ∀ i, i < cfg.n → cfg.marshalOk i = true) :
    Reachable cfg (finalState cfg) :=
  (serial_reachable cfg hcap hm cfg.n (Nat.le_refl _)).tail (final_step cfg)

lemma zinv_step {cfg : Cfg} {s t : PState} (hcap : cfg.cap = 0)
    (hn : 1 ≤ cfg.n) (hz : ZeroCapStuck cfg s) (ht : Step cfg s t) :
    ZeroCapStuck cfg t := by
  obtain ⟨h1, h2, h3, h4, h5, h6, h7⟩ := hz
  unfold Step succs at ht
  rw [if_neg (by simp [h7])] at ht
  rcases List.mem_append.mp ht with hsub | htask
  · unfold submitterSuccs at hsub
    rw [if_neg (by simp [h6])] at hsub
    by_cases hph : s.phase = SubPhase.ready
    · rw [if_pos hph] at hsub
      by_cases hidx : s.subIdx < s.tasks.length
      · rw [if_pos hidx] at hsub
        obtain rfl := List.mem_singleton.mp hsub
        exact ⟨h1, by simp, h3, h4, h5, h6, h7⟩
      · exfalso
        apply hidx
        rw [h1, h4, List.length_replicate]
        omega
    · rw [if_neg hph] at hsub
      by_cases hph2 : s.phase = SubPhase.added
      · rw [if_pos hph2] at hsub
        rw [if_neg (by rw [h3, hcap]; omega)] at hsub
        cases hsub
      · have hacq : s.phase = SubPhase.acquired := by
          cases hq : s.phase <;> simp_all
        exact absurd hacq h2
  · unfold taskSuccs at htask
    obtain ⟨i, hmem, hstep⟩ := List.mem_filterMap.mp htask
    have hilt : i < s.tasks.length := List.mem_range.mp hmem
    have hgt : s.tasks[i]? = some TaskStatus.idle := by
      rw [h4] at hilt ⊢
      rw [List.length_replicate] at hilt
      rw [List.getElem?_replicate, if_pos hilt]
    unfold taskStep at hstep
    rw [if_neg (by simp [hgt]), if_neg (by simp [hgt]), if_neg (by simp [hgt]),
      if_neg (by simp [hgt])] at hstep
    exact Option.noConfusion hstep

lemma zinv_reachable {cfg : Cfg} {s : PState} (hcap : cfg.cap = 0)
    (hn : 1 ≤ cfg.n) (h : Reachable cfg s) : ZeroCapStuck cfg s := by
  induction h with
  | refl => exact ⟨rfl, by simp [initState], rfl, rfl, rfl, rfl, rfl⟩
  | tail _ hstep ih => exact zinv_step hcap hn ih hstep

lemma returned_all_done {cfg : Cfg} {s : PState} (h : Reachable cfg s)
    (hr : s.returned = true) :
    s.tasks = List.replicate cfg.n TaskStatus.done := by
  have hi := inv_reachable h
  exact List.eq_replicate_iff.mpr ⟨hi.len_eq, hi.ret_done hr⟩

lemma returned_puts {cfg : Cfg} {s : PState} (h : Reachable cfg s)
    (hr : s.returned = true) : s.puts = cfg.n := by
  have hi := inv_reachable h
  have hrep := returned_all_done h hr
  rw [hi.puts_eq, hrep, List.countP_replicate]
  simp [reachedPut]

lemma handleParts_clean (parts : List PartOutcome)
    (h : ∀ p ∈ parts, partClean p = true) :
    handleParts parts =
      { statusCode := 200, body := "CSV data processed successfully" } := by
  induction parts with
  | nil => rfl
  | cons p rest ih =>
      cases p with
      | readError m =>
          have hp := h _ (List.mem_cons_self _ _)
          simp [partClean] at hp
      | fileCsvError m =>
          have hp := h _ (List.mem_cons_self _ _)
          simp [partClean] at hp
      | nonFile nm => exact ih (fun q hq => h q (List.mem_cons_of_mem _ hq))
      | fileOk lines => exact ih (fun q hq => h q (List.mem_cons_of_mem _ hq))

/-- C1: for every input sequence of N parsed records, at every instant during
the pipeline's execution (every reachable state of the dispatch system built
by `handleRequest`, whose semaphore capacity is fixed at 500 by `mkCfg`), the
number of concurrently active write tasks — goroutines between semaphore
acquisition and release — is at most 500. -/
theorem C1_admission_bound (n : Nat) (marshalOk putOk : Nat → Bool)
    (s : PState) (h : Reachable (mkCfg n marshalOk putOk) s) :
    s.tasks.countP holdsToken ≤ 500 := by
  have hi := inv_reachable h
  have h1 := hi.sem_eq
  have h2 := hi.sem_le
  have hcap : (mkCfg n marshalOk putOk).cap = 500 := rfl
  omega

/-- Witness for C1 at a concrete configuration and state. -/
theorem C1_witness :
    (initState (mkCfg 1 (fun _ => true) (fun _ => true))).tasks.countP
      holdsToken ≤ 500 :=
  C1_admission_bound 1 (fun _ => true) (fun _ => true) _
    Relation.ReflTransGen.refl

/-- C2: the dispatch loop returns only after all N per-record tasks are
terminal — in every reachable returned state all N goroutines are `done`, so
the completion count equals N; for capacity ≥ 1 and no fatal marshalling
error a completed run is in fact reached; and for N = 0 the initial state
steps directly to the returned state, with `PutItem` never called in any
reachable state. -/
theorem C2_join_semantics (cfg : Cfg) :
    (∀ s, Reachable cfg s → s.returned = true →
      s.tasks = List.replicate cfg.n TaskStatus.done ∧
      s.tasks.countP (fun t => t == TaskStatus.done) = cfg.n)
    ∧ (1 ≤ cfg.cap → (∀ i, i < cfg.n → cfg.marshalOk i = true) →
      Reachable cfg (finalState cfg) ∧ (finalState cfg).returned = true)
    ∧ (cfg.n = 0 →
      Step cfg (initState cfg) (finalState cfg) ∧
      (finalState cfg).returned = true ∧
      ∀ s, Reachable cfg s → s.puts = 0) := by
  refine ⟨?_, ?_, ?_⟩
  · intro s h hr
    have hrep := returned_all_done h hr
    refine ⟨hrep, ?_⟩
    rw [hrep, List.countP_replicate]
    simp
  · intro hcap hm
    exact ⟨final_reachable cfg hcap hm, rfl⟩
  · intro hn
    have hstep := final_step cfg
    rw [hn, serialState_zero] at hstep
    refine ⟨hstep, rfl, ?_⟩
    intro s h
    have hi := inv_reachable h
    have hl := hi.len_eq
    rw [hn] at hl
    have hnil : s.tasks = [] := List.eq_nil_of_length_eq_zero hl
    have hp := hi.puts_eq
    rw [hnil] at hp
    simpa using hp

/-- Witness for C2 at the empty-input configuration. -/
theorem C2_witness :
    (finalState (mkCfg 0 (fun _ => true) (fun _ => true))).returned = true ∧
    (finalState (mkCfg 0 (fun _ => true) (fun _ => true))).puts = 0 := by
  have h := C2_join_semantics (mkCfg 0 (fun _ => true) (fun _ => true))
  have h3 := h.2.2 rfl
  exact ⟨h3.2.1, h3.2.2 _ (Relation.ReflTransGen.single h3.1)⟩

/-- C3: a store-write failure is isolated: the affected task logs the failure
and returns normally without retrying (exactly one `PutItem` call, one
failure log, deferred release and `wg.Done` still run); in every completed
run — under any store-write outcome oracle — every one of the N records has
issued its `PutItem` call; and a completed run is reached under any such
oracle, so a failing record never aborts the pipeline or blocks its
siblings. -/
theorem C3_failure_isolation :
    (∀ (rec : List String) (id e : String),
      (processRecord rec id none (some e)).exitedProcess = false ∧
      (processRecord rec id none (some e)).putCalls = [{ ID := id }] ∧
      (processRecord rec id none (some e)).logs =
        [LogEvent.processing rec, LogEvent.putError e] ∧
      (processRecord rec id none (some e)).semReleases = 1 ∧
      (processRecord rec id none (some e)).wgDones = 1)
    ∧ (∀ (cfg : Cfg) (s : PState), Reachable cfg s → s.returned = true →
        s.puts = cfg.n)
    ∧ (∀ cfg : Cfg, 1 ≤ cfg.cap →
        (∀ i, i < cfg.n → cfg.marshalOk i = true) →
        Reachable cfg (finalState cfg) ∧ (finalState cfg).returned = true ∧
        (finalState cfg).puts = cfg.n) := by
  refine ⟨?_, ?_, ?_⟩
  · intro rec id e
    exact ⟨rfl, rfl, rfl, rfl, rfl⟩
  · intro cfg s h hr
    exact returned_puts h hr
  · intro cfg hcap hm
    exact ⟨final_reachable cfg hcap hm, rfl, rfl⟩

/-- Witness for C3: one record fails its store write, the task still issues
exactly its one put call; a two-record run with every `PutItem` failing still
reaches the completed state with both puts issued. -/
theorem C3_witness :
    (processRecord ["a"] "id-1" none (some "boom")).putCalls =
      [{ ID := "id-1" }] ∧
    Reachable (mkCfg 2 (fun _ => true) (fun _ => false))
      (finalState (mkCfg 2 (fun _ => true) (fun _ => false))) ∧
    (finalState (mkCfg 2 (fun _ => true) (fun _ => false))).puts = 2 := by
  have h := C3_failure_isolation
  have h3 := h.2.2 (mkCfg 2 (fun _ => true) (fun _ => false)) (by decide)
    (fun i _ => rfl)
  exact ⟨(h.1 ["a"] "id-1" "boom").2.1, h3.1, h3.2.2⟩

/-- C4 counterexample: with identity/item generation failing on the 4th of 10
records, there is an execution in which the pipeline does abort (`exited`),
but the 5th record has already been submitted to `put` before the abort
(status `putDone`, one `PutItem` issued) — refuting "records 5 through 10 are
never submitted to put". -/
theorem C4_counterexample :
    Reachable cfgD stD ∧ stD.exited = true ∧ cfgD.marshalOk 3 = false ∧
    stD.tasks[4]? = some TaskStatus.putDone ∧ stD.puts = 1 ∧
    stD.tasks[3]? = some TaskStatus.started :=
  ⟨reachable_runPicks cfgD _ _ Relation.ReflTransGen.refl, by decide⟩

/-- C4 (amended): when building the persisted item fails for a record, the
whole process aborts at that point — an aborted state has no further
transitions at all (no later `put` can happen after the abort), and a
marshalling failure is the only way the pipeline aborts — but because
dispatch is asynchronous, records after the failing one may already have
been handed to goroutines and may reach `put` before the abort (see the
counterexample), so "records 5-10 are never submitted to put" does not hold
of every execution. -/
theorem C4_abort_semantics :
    (∀ (cfg : Cfg) (s : PState), Reachable cfg s → s.exited = true →
      succs cfg s = [] ∧ ∃ i, i < cfg.n ∧ cfg.marshalOk i = false)
    ∧ (∀ (cfg : Cfg) (s : PState), Reachable cfg s →
        (∀ i, i < cfg.n → cfg.marshalOk i = true) → s.exited = false) := by
  constructor
  · intro cfg s h hx
    refine ⟨?_, (inv_reachable h).exit_cause hx⟩
    unfold succs
    rw [if_pos hx]
  · intro cfg s h hm
    by_contra hc
    have hx : s.exited = true := by
      revert hc
      cases s.exited <;> simp
    obtain ⟨i, hi, hfalse⟩ := (inv_reachable h).exit_cause hx
    rw [hm i hi] at hfalse
    cases hfalse

/-- Witness for C4 at a concrete aborted state and a concrete clean run. -/
theorem C4_witness :
    succs cfgW4 stW4 = [] ∧
    (initState (mkCfg 1 (fun _ => true) (fun _ => true))).exited = false := by
  have h := C4_abort_semantics
  constructor
  · exact (h.1 cfgW4 stW4
      (reachable_runPicks cfgW4 _ _ Relation.ReflTransGen.refl)
      (by decide)).1
  · exact h.2 (mkCfg 1 (fun _ => true) (fun _ => true)) _
      Relation.ReflTransGen.refl (fun i _ => rfl)

/-- C5 counterexample: on the fatal marshalling-error exit path,
`os.Exit(1)` terminates the process without running the deferred semaphore
release or `wg.Done()` — so that exit path does NOT release the token or
increment the completion counter, refuting "on every exit path". -/
theorem C5_counterexample :
    (processRecord ["f1", "f2"] "id-0" (some "marshal error")
      none).exitedProcess = true ∧
    (processRecord ["f1", "f2"] "id-0" (some "marshal error")
      none).semReleases = 0 ∧
    (processRecord ["f1", "f2"] "id-0" (some "marshal error")
      none).wgDones = 0 :=
  ⟨rfl, rfl, rfl⟩

/-- C5 (amended): on both normal exit paths (successful write, store-write
failure) a task releases its token and runs `wg.Done()` exactly once each;
on the fatal marshalling path the process exits with neither deferred call
executed; and in every reachable state of the dispatch system every
mid-flight goroutine is covered by a held semaphore slot (token acquired
before store I/O begins). -/
theorem C5_release_semantics :
    (∀ (rec : List String) (id : String) (putErr : Option String),
      (processRecord rec id none putErr).semReleases = 1 ∧
      (processRecord rec id none putErr).wgDones = 1 ∧
      (processRecord rec id none putErr).exitedProcess = false)
    ∧ (∀ (rec : List String) (id e : String) (putErr : Option String),
      (processRecord rec id (some e) putErr).semReleases = 0 ∧
      (processRecord rec id (some e) putErr).wgDones = 0 ∧
      (processRecord rec id (some e) putErr).exitedProcess = true ∧
      (processRecord rec id (some e) putErr).putCalls = [])
    ∧ (∀ (cfg : Cfg) (s : PState), Reachable cfg s →
        s.tasks.countP holdsToken ≤ s.semHeld) := by
  refine ⟨?_, ?_, ?_⟩
  · intro rec id putErr
    cases putErr <;> exact ⟨rfl, rfl, rfl⟩
  · intro rec id e putErr
    exact ⟨rfl, rfl, rfl, rfl⟩
  · intro cfg s h
    have h1 := (inv_reachable h).sem_eq
    omega

/-- Witness for C5 at concrete records and a concrete reachable state. -/
theorem C5_witness :
    (processRecord ["x"] "u0" none none).semReleases = 1 ∧
    (processRecord ["x"] "u1" (some "bad type") none).wgDones = 0 ∧
    (initState (mkCfg 3 (fun _ => true) (fun _ => true))).tasks.countP
      holdsToken ≤
      (initState (mkCfg 3 (fun _ => true) (fun _ => true))).semHeld := by
  have h := C5_release_semantics
  exact ⟨(h.1 ["x"] "u0" none).1, (h.2.1 ["x"] "u1" "bad type" none).2.1,
    h.2.2 (mkCfg 3 (fun _ => true) (fun _ => true)) _
      Relation.ReflTransGen.refl⟩

/-- C6 counterexample: with a requested capacity of 0 the dispatch loop is
not rejected before submission — it reaches a stuck state (no enabled
transitions) that has not returned, with nothing submitted and no `put`
issued: the pipeline silently hangs, and no rejection/validation path exists
in the code. -/
theorem C6_counterexample :
    Reachable cfgZ stZ ∧ succs cfgZ stZ = [] ∧ stZ.returned = false ∧
    stZ.subIdx = 0 ∧ stZ.puts = 0 ∧ cfgZ.cap = 0 ∧ 1 ≤ cfgZ.n :=
  ⟨reachable_runPicks cfgZ _ _ Relation.ReflTransGen.refl, by decide⟩

/-- C6 (amended): the code performs no capacity validation (capacity is the
hard-coded constant 500); under a capacity of 0 with at least one record,
every reachable state of the dispatch system has the submitter still stuck
before its first spawn — never returned, no goroutine started, no `PutItem`
issued — i.e. the pipeline hangs silently instead of rejecting the
configuration. -/
theorem C6_zero_capacity_hangs (n : Nat) (marshalOk putOk : Nat → Bool)
    (s : PState) (hn : 1 ≤ n)
    (h : Reachable
      { cap := 0, n := n, marshalOk := marshalOk, putOk := putOk } s) :
    s.returned = false ∧ s.puts = 0 ∧ s.subIdx = 0 ∧
    s.tasks = List.replicate n TaskStatus.idle := by
  have hz := zinv_reachable rfl hn h
  exact ⟨hz.2.2.2.2.2.1, hz.2.2.2.2.1, hz.1, hz.2.2.2.1⟩

/-- Witness for C6 at the concrete stuck state. -/
theorem C6_witness :
    stZ.returned = false ∧ stZ.puts = 0 ∧ stZ.subIdx = 0 ∧
    stZ.tasks = List.replicate 1 TaskStatus.idle :=
  C6_zero_capacity_hangs 1 (fun _ => true) (fun _ => true) stZ (by omega)
    (reachable_runPicks cfgZ _ _ Relation.ReflTransGen.refl)

/-- C7: the value a write task hands to `PutItem` is exactly the record
`{ ID := id }` built from the freshly generated identifier alone — its only
field is the identifier — and it is completely independent of the input
record's field strings: two different raw records produce byte-identical put
calls (and identical control flow) under the same identifier and oracle
outcomes. -/
theorem C7_persisted_value_id_only :
    ∀ (rec : List String) (id : String) (putErr marshalErr : Option String),
      (processRecord rec id none putErr).putCalls = [{ ID := id }] ∧
      ({ ID := id } : Record).ID = id ∧
      (∀ other : List String,
        (processRecord other id marshalErr putErr).putCalls =
          (processRecord rec id marshalErr putErr).putCalls ∧
        (processRecord other id marshalErr putErr).exitedProcess =
          (processRecord rec id marshalErr putErr).exitedProcess) := by
  intro rec id putErr marshalErr
  refine ⟨?_, rfl, ?_⟩
  · cases putErr <;> rfl
  · intro other
    cases marshalErr <;> cases putErr <;> exact ⟨rfl, rfl⟩

/-- C8: processing the same raw record twice with distinct freshly generated
identifiers yields two put calls whose persisted records differ — no
deduplication happens, both `PutItem` calls are issued. -/
theorem C8_rerun_distinct_ids (rec : List String) (id₁ id₂ : String)
    (pe₁ pe₂ : Option String) (hne : id₁ ≠ id₂) :
    (processRecord rec id₁ none pe₁).putCalls = [{ ID := id₁ }] ∧
    (processRecord rec id₂ none pe₂).putCalls = [{ ID := id₂ }] ∧
    ({ ID := id₁ } : Record) ≠ { ID := id₂ } := by
  refine ⟨?_, ?_, ?_⟩
  · cases pe₁ <;> rfl
  · cases pe₂ <;> rfl
  · intro hcon
    exact hne (congrArg Record.ID hcon)

/-- Witness for C8 at one concrete record processed twice. -/
theorem C8_witness :
    (processRecord ["alice", "30"] "uuid-a" none none).putCalls =
      [{ ID := "uuid-a" }] ∧
    (processRecord ["alice", "30"] "uuid-b" none none).putCalls =
      [{ ID := "uuid-b" }] ∧
    ({ ID := "uuid-a" } : Record) ≠ { ID := "uuid-b" } :=
  C8_rerun_distinct_ids ["alice", "30"] "uuid-a" "uuid-b" none none
    (by decide)

/-- C9: whenever the dispatch loop finishes, the handler answers HTTP 200
with body "CSV data processed successfully", regardless of per-record
failures: with a POST method and no part-reading or CSV-parsing error the
response is that constant — the pipeline reports nothing to the handler —
and a run in which two records fail their store writes still reaches the
returned state, with the two failures visible only as log entries. -/
theorem C9_success_regardless :
    (∀ parts : List PartOutcome, (∀ p ∈ parts, partClean p = true) →
      handleRequest "POST" parts =
        { statusCode := 200, body := "CSV data processed successfully" })
    ∧ (Reachable scenarioC (finalState scenarioC) ∧
       (finalState scenarioC).returned = true ∧
       (finalState scenarioC).failLogs = 2) := by
  constructor
  · intro parts hclean
    unfold handleRequest
    rw [if_neg (by simp)]
    exact handleParts_clean parts hclean
  · refine ⟨final_reachable scenarioC (by decide) (fun i _ => rfl), rfl, ?_⟩
    decide

/-- Witness for C9 at a concrete clean request. -/
theorem C9_witness :
    handleRequest "POST"
      [PartOutcome.nonFile "meta", PartOutcome.fileOk [["a", "b"], ["c"]]] =
      { statusCode := 200, body := "CSV data processed successfully" } :=
  C9_success_regardless.1 _ (by decide)

/-- C10: `extractBoundary` splits the Content-Type header on `;`, trims each
piece, and returns the suffix after `boundary=` of the first piece that
starts with that prefix; with no such piece it returns the empty string, and
pieces containing `boundary=` other than as a prefix are never selected —
it agrees with the direct formalisation `extractBoundarySpec` of that
description on every input. -/
theorem C10_extractBoundary_refinement (contentType : String) :
    extractBoundary contentType = extractBoundarySpec contentType := by
  unfold extractBoundary extractBoundarySpec
  exact findBoundary_eq_find? _
